import Mathlib

/-!
Verification of the promise primitive (`src/promise.c`) and the reactor core
(`src/unix/core.c`) of this libuv snapshot.

The promise is a mutex/condition-variable protected single-assignment future.
Because every promise operation holds the one mutex for its whole critical
section, the concurrent executions the spec talks about are exactly the
sequential interleavings of the operations' critical sections; we therefore
embed each operation as a pure function on the promise record and reason about
sequences of operations.  The mutex and condition variable themselves carry no
modelled data; a `Bool` records whether a broadcast was issued, and the
blocking point of `uv_promise_get` (the `uv_cond_wait` loop) is embedded as a
two-phase operation: the enter phase (lock, `waiting++`) and the completion
phase (the `while` loop has observed a non-`PENDING` status, `waiting--`,
snapshot, unlock).
-/

/-- Status values of `uv_promise_t`: `UV_PROMISE_PENDING`, `UV_PROMISE_FULFILLED`,
`UV_PROMISE_BROKEN`, `UV_PROMISE_CANCELLED`. -/
inductive PromiseStatus
  | pending
  | fulfilled
  | broken
  | cancelled
deriving DecidableEq, Repr

/-- The fields of `uv_promise_t` guarded by its mutex.  The C `void* result`
pointer is embedded as `Option Nat` with `none` for `NULL`. -/
structure Promise where
  status : PromiseStatus
  result : Option Nat
  code : Int
  waiting : Nat
deriving DecidableEq, Repr

/-- `uv_promise_result_t`: the `{status, code, result}` snapshot returned by
`uv_promise_get` and `uv_promise_trywait`. -/
structure PromiseResult where
  status : PromiseStatus
  code : Int
  result : Option Nat
deriving DecidableEq, Repr

/-- The errno constant `EINVAL` (invalid argument); the promise functions
return `-EINVAL` on an illegal state transition. -/
def EINVAL : Int := 22

/-- Outcome of `uv_promise_init`: the return code, the field values written to
the handle (`none` when the early `return rc` fires before any field is
written), and whether the mutex / condition variable are still allocated when
the function returns. -/
structure InitOutcome where
  rc : Int
  fields : Option Promise
  mutexAlive : Bool
  condAlive : Bool
deriving DecidableEq, Repr

/-- `uv_promise_init`, parameterised by the return codes of the two external
allocation calls `uv_mutex_init` and `uv_cond_init` (0 = success).  A
non-zero mutex code returns immediately, before any handle field is written;
a non-zero condition-variable code destroys the already-allocated mutex, then
the fields are written and the non-zero code is returned. -/
def uv_promise_init (rcMutex rcCond : Int) : InitOutcome :=
  if rcMutex ≠ 0 then
    { rc := rcMutex, fields := none, mutexAlive := false, condAlive := false }
  else
    { rc := rcCond,
      fields := some { status := .pending, result := none, code := 0, waiting := 0 },
      mutexAlive := decide (rcCond = 0),
      condAlive := decide (rcCond = 0) }

/-- `uv_promise_fulfil`: under the lock, if status is not `PENDING` return
`-EINVAL` and change nothing; otherwise set status `FULFILLED`, store the
result, broadcast when `waiting > 0`, and return 0.  The returned pair is
(return code, promise state at unlock). -/
def uv_promise_fulfil (p : Promise) (result : Option Nat) : Int × Promise :=
  if p.status ≠ .pending then (-EINVAL, p)
  else (0, { p with status := .fulfilled, result := result })

/-- `uv_promise_break`: under the lock, if status is not `PENDING` return
`-EINVAL` and change nothing; otherwise set status `BROKEN`, store the code,
broadcast when `waiting > 0`, and return 0. -/
def uv_promise_break (p : Promise) (code : Int) : Int × Promise :=
  if p.status ≠ .pending then (-EINVAL, p)
  else (0, { p with status := .broken, code := code })

/-- First phase of `uv_promise_get`: lock and increment `waiting`.  After this
the caller sits in the `uv_cond_wait` loop until status leaves `PENDING`. -/
def uv_promise_get_enter (p : Promise) : Promise :=
  { p with waiting := p.waiting + 1 }

/-- Second phase of `uv_promise_get`, entered once the `while` loop has
observed a non-`PENDING` status: decrement `waiting`, snapshot
`{status, code, result}`, unlock.  Returns (snapshot, promise state at
unlock). -/
def uv_promise_get_complete (p : Promise) : PromiseResult × Promise :=
  ({ status := p.status, code := p.code, result := p.result },
   { p with waiting := p.waiting - 1 })

/-- `uv_promise_get` when no other operation intervenes between lock and
unlock: if the promise is still `PENDING` the call blocks in `uv_cond_wait`
(embedded as `none`); otherwise the wait loop body never runs and the two
phases execute back to back. -/
def uv_promise_get (p : Promise) : Option (PromiseResult × Promise) :=
  if p.status = .pending then none
  else some (uv_promise_get_complete (uv_promise_get_enter p))

/-- `uv_promise_trywait`, parameterised by whether `uv_mutex_trylock`
succeeded.  On a failed trylock it returns the fixed
`{PENDING, 0, NULL}` snapshot without reading the handle; on success it
snapshots the current fields and unlocks.  Either way the promise state is
returned unchanged. -/
def uv_promise_trywait (p : Promise) (acquired : Bool) : PromiseResult × Promise :=
  if acquired then ({ status := p.status, code := p.code, result := p.result }, p)
  else ({ status := .pending, code := 0, result := none }, p)

/-- `uv_promise_destroy`: under the lock, force a still-`PENDING` status to
`CANCELLED`, broadcast when `waiting > 0`, unlock, then release the mutex and
the condition variable (the releases carry no modelled state).  Returns
(promise state at unlock, whether `uv_cond_broadcast` was issued). -/
def uv_promise_destroy (p : Promise) : Promise × Bool :=
  let p1 := if p.status = .pending then { p with status := .cancelled } else p
  (p1, decide (0 < p1.waiting))

/-- One producer-side critical section: a fulfil or a break call. -/
inductive PromOp
  | fulfil (v : Option Nat)
  | brk (c : Int)
deriving DecidableEq, Repr

/-- Run one producer operation. -/
def applyOp (p : Promise) : PromOp → Int × Promise
  | .fulfil v => uv_promise_fulfil p v
  | .brk c => uv_promise_break p c

/-- Run a sequence of fulfil/break critical sections in order, collecting the
return codes and the final promise state. -/
def runOps (p : Promise) : List PromOp → List Int × Promise
  | [] => ([], p)
  | op :: ops =>
    let r := applyOp p op
    let s := runOps r.2 ops
    (r.1 :: s.1, s.2)

/-- The terminal state and stored value a successful operation writes:
a successful fulfil leaves status `FULFILLED` with its value in `result`,
a successful break leaves status `BROKEN` with its code in `code`. -/
def opSets : PromOp → Promise → Prop
  | .fulfil v, q => q.status = .fulfilled ∧ q.result = v
  | .brk c, q => q.status = .broken ∧ q.code = c

/-- The implicit invariant relating a pending promise's fields: while status
is `PENDING`, `code` is 0 and `result` is `NULL`. -/
def pendingInv (p : Promise) : Prop :=
  p.status = .pending → p.code = 0 ∧ p.result = none

/-!
The reactor core of `src/unix/core.c`.  Handles live in a store indexed by
`Nat` identifiers; the loop's intrusive singly-linked pending chain is
abstracted as the list of identifiers in chain order (head = most recently
pushed), with each handle's `next_pending` field mirroring its intrusive
link.  The external collaborators — the per-type pending-event dispatchers,
close routines, the idle/prepare/check phase hooks and the backend poller —
are parameters of the model: dispatchers and close callbacks are described by
the set of handles they enqueue, phase hooks and the poller as loop
transformations, and the type-specific shutdown/release calls are reported as
trace events.
-/

/-- Handle type tags (`uv_handle_type`) covered by the `uv_close` and
`uv__run_pending` switches. -/
inductive HType
  | namedPipe
  | tty
  | tcp
  | udp
  | prepare
  | chck
  | idle
  | async
  | timer
  | process
  | fsEvent
  | poll
deriving DecidableEq, Repr

/-- The reactor-relevant fields of `uv_handle_t`: the type tag; the flag bits
`UV__REF`, `UV_CLOSING`, `UV_CLOSED`, `UV__PENDING` as booleans; the intrusive
`next_pending` link; whether a close callback was supplied; and the activity
bit read by the external `uv__is_active` test (modelled from the spec:
true while the handle counts toward the loop's has-work determination). -/
structure Handle where
  htype : HType
  active : Bool
  ref : Bool
  closing : Bool
  closed : Bool
  pending : Bool
  next_pending : Option Nat
  has_close_cb : Bool
deriving DecidableEq, Repr

/-- The reactor-relevant fields of `uv_loop_t`: the pending chain, the handle
store, and the counters behind the external accounting reads
`uv__has_active_handles`, `uv__has_active_reqs` and the idle-hook registry
consulted by `uv__should_block` (modelled from the spec: non-negative counts
that are zero exactly when nothing of that kind remains). -/
structure Loop where
  pending_handles : List Nat
  handles : Nat → Handle
  active_handles : Nat
  active_reqs : Nat
  idle_handles : Nat

/-- Modelled from the spec: `uv__make_pending` (declared in the internal
header, body not in this snapshot).  `PENDING` means "currently linked into
the pending queue", `next_pending` is owned by the queue while `PENDING` is
set, and a handle is pending in at most one queue at a time; so enqueueing
pushes a not-yet-pending handle onto the head of the intrusive chain, setting
its flag and link, and leaves an already-linked handle alone. -/
def uv__make_pending (l : Loop) (id : Nat) : Loop :=
  if (l.handles id).pending then l
  else
    { l with
      pending_handles := id :: l.pending_handles,
      handles := Function.update l.handles id
        ({ l.handles id with
            pending := true, next_pending := l.pending_handles.head? }) }

/-- The calls `uv__finish_close` makes after its assertions, in trace order:
the type-specific release and the close-callback invocation. -/
inductive CloseEvent
  | streamDestroy
  | udpFinishClose
  | closeCb
deriving DecidableEq, Repr

/-- The type-specific release arm of `uv__finish_close`'s switch: the stream
kinds run `uv__stream_destroy`, UDP runs `uv__udp_finish_close`, and the
remaining kinds (prepare, check, idle, async, timer, process, fs-event, poll)
release nothing. -/
def closeReleaseEvents : HType → List CloseEvent
  | .namedPipe | .tcp | .tty => [.streamDestroy]
  | .udp => [.udpFinishClose]
  | _ => []

/-- `uv__finish_close`: asserts that the handle is not active, has `CLOSING`
set and does not yet have `CLOSED` set (`none` embeds a failed assertion,
which aborts the process); then sets `CLOSED`, performs the type-specific
release, invokes the close callback when one was supplied, and un-references
the handle (`uv__handle_unref` is not in this snapshot; modelled from the
spec as clearing the `REFERENCED` flag).  The stream arm's extra assertions
concern watcher/descriptor state of the external stream subsystem, which is
not modelled.  Returns the updated handle and the ordered call trace. -/
def uv__finish_close (h : Handle) : Option (Handle × List CloseEvent) :=
  if h.active then none
  else if !h.closing then none
  else if h.closed then none
  else
    some ({ h with closed := true, ref := false },
      closeReleaseEvents h.htype ++ if h.has_close_cb then [.closeCb] else [])

/-- External collaborators of the drain and run phases: the handle
identifiers a type-specific pending dispatch (`uv__stream_pending`) or a close
callback enqueues while it runs, and the loop transformations of the external
idle, prepare, poll and check phases. -/
structure LoopExt where
  streamPendingEnq : Nat → List Nat
  closeCbEnq : Nat → List Nat
  runIdle : Loop → Loop
  runPrepare : Loop → Loop
  poll : Loop → Bool → Loop
  runCheck : Loop → Loop

/-- The dispatch `uv__run_pending` performs for one detached handle: the
close finalizer for a `CLOSING` handle, the stream pending-event dispatcher
otherwise. -/
inductive PendAction
  | finishClose (id : Nat)
  | streamPending (id : Nat)
deriving DecidableEq, Repr

/-- The identifier of the handle an action dispatched. -/
def PendAction.hid : PendAction → Nat
  | .finishClose i => i
  | .streamPending i => i

/-- The handle kinds with a pending-event dispatcher: `UV_NAMED_PIPE`,
`UV_TCP`, `UV_TTY`.  Any other non-closing kind in the pending queue hits the
switch's `abort()`. -/
def isStreamType : HType → Bool
  | .namedPipe | .tcp | .tty => true
  | _ => false

/-- The identifiers a dispatch action enqueues while it runs. -/
def enqueuedDuring (ext : LoopExt) : PendAction → List Nat
  | .finishClose i => ext.closeCbEnq i
  | .streamPending i => ext.streamPendingEnq i

/-- Store handle `h` at identifier `id`. -/
def setHandle (l : Loop) (id : Nat) (h : Handle) : Loop :=
  { l with handles := Function.update l.handles id h }

/-- Clear the `PENDING` flag and null the `next_pending` link of handle `id`,
the first two statements of the drain loop's body. -/
def clearPending (l : Loop) (id : Nat) : Loop :=
  setHandle l id { l.handles id with pending := false, next_pending := none }

/-- The loop body of `uv__run_pending` for one detached handle `id`: null its
`next_pending` link and clear its `PENDING` flag; if `CLOSING` is set run
`uv__finish_close` (its close-callback invocation enqueuing
`ext.closeCbEnq id` when a callback was supplied); otherwise run the stream
pending dispatcher (enqueuing `ext.streamPendingEnq id`); a non-closing
handle of any other kind aborts (`none`). -/
def uv__process_pending (ext : LoopExt) (l : Loop) (id : Nat) :
    Option (Loop × PendAction) :=
  if (l.handles id).closing then
    match uv__finish_close ((clearPending l id).handles id) with
    | none => none
    | some (h2, _) =>
      some (if (l.handles id).has_close_cb then
              (ext.closeCbEnq id).foldl uv__make_pending
                (setHandle (clearPending l id) id h2)
            else setHandle (clearPending l id) id h2,
        .finishClose id)
  else if isStreamType (l.handles id).htype then
    some ((ext.streamPendingEnq id).foldl uv__make_pending (clearPending l id),
      .streamPending id)
  else none

/-- Process a detached chain in order, collecting the dispatch trace. -/
def uv__run_pending_list (ext : LoopExt) : List Nat → Loop → Option (Loop × List PendAction)
  | [], l => some (l, [])
  | id :: ids, l =>
    match uv__process_pending ext l id with
    | none => none
    | some (l1, a) =>
      match uv__run_pending_list ext ids l1 with
      | none => none
      | some (l2, tr) => some (l2, a :: tr)

/-- `uv__run_pending`: return at once on an empty queue; otherwise detach the
entire chain — the loop's list is empty before any dispatch runs — and
process each detached handle in turn. -/
def uv__run_pending (ext : LoopExt) (l : Loop) : Option (Loop × List PendAction) :=
  if l.pending_handles = [] then some (l, [])
  else uv__run_pending_list ext l.pending_handles { l with pending_handles := [] }

/-- The type-specific close routines dispatched by `uv_close`'s switch. -/
inductive CloseRoutine
  | pipeClose
  | streamClose
  | udpClose
  | prepareClose
  | checkClose
  | idleClose
  | asyncClose
  | timerClose
  | processClose
  | fsEventClose
  | pollClose
deriving DecidableEq, Repr

/-- The routine `uv_close`'s switch selects for each handle type tag:
`UV_NAMED_PIPE` → `uv__pipe_close`, `UV_TTY`/`UV_TCP` → `uv__stream_close`,
`UV_UDP` → `uv__udp_close`, and so on; every known tag has an arm, the
default asserts. -/
def closeRoutineFor : HType → CloseRoutine
  | .namedPipe => .pipeClose
  | .tty => .streamClose
  | .tcp => .streamClose
  | .udp => .udpClose
  | .prepare => .prepareClose
  | .chck => .checkClose
  | .idle => .idleClose
  | .async => .asyncClose
  | .timer => .timerClose
  | .process => .processClose
  | .fsEvent => .fsEventClose
  | .poll => .pollClose

/-- `uv_close`: store the supplied close callback, dispatch the type-specific
shutdown routine selected by the handle's type tag (external; the model
returns which routine was selected), then set `UV_CLOSING` and call
`uv__make_pending` unconditionally. -/
def uv_close (l : Loop) (id : Nat) (cb : Bool) : Loop × CloseRoutine :=
  let l1 := setHandle l id { l.handles id with has_close_cb := cb }
  let l2 := setHandle l1 id { l1.handles id with closing := true }
  (uv__make_pending l2 id, closeRoutineFor (l.handles id).htype)

/-- Modelled from the spec: `uv__has_pending_handles` (internal header,
body not in this snapshot) — the pending queue is non-empty. -/
def uv__has_pending_handles (l : Loop) : Bool :=
  decide (l.pending_handles ≠ [])

/-- Modelled from the spec: `uv__has_active_handles` (internal header, body
not in this snapshot) — at least one active handle. -/
def uv__has_active_handles (l : Loop) : Bool :=
  decide (0 < l.active_handles)

/-- Modelled from the spec: `uv__has_active_reqs` (internal header, body not
in this snapshot) — at least one active request. -/
def uv__has_active_reqs (l : Loop) : Bool :=
  decide (0 < l.active_reqs)

/-- `uv__should_block`: block in the poller only when no idle-phase hooks are
registered and at least one handle is active. -/
def uv__should_block (l : Loop) : Bool :=
  decide (l.idle_handles = 0) && decide (0 < l.active_handles)

/-- One reactor cycle `uv__run`: run the idle hooks, drain the pending queue,
and, only when an active handle or request exists, run the prepare hooks,
poll the backend (blocking per `uv__should_block` on the post-prepare state)
and run the check hooks.  Returns the "more work may exist" flag together
with the loop state at cycle end; `none` embeds an aborted drain. -/
def uv__run (ext : LoopExt) (l : Loop) : Option (Bool × Loop) :=
  let l1 := ext.runIdle l
  match uv__run_pending ext l1 with
  | none => none
  | some (l2, _) =>
    let l3 :=
      if uv__has_active_handles l2 || uv__has_active_reqs l2 then
        let a := ext.runPrepare l2
        let b := ext.poll a (uv__should_block a)
        ext.runCheck b
      else l2
    some (uv__has_pending_handles l3 || uv__has_active_handles l3 ||
            uv__has_active_reqs l3, l3)

/-- `uv_run`: `while (uv__run(loop));` then `return 0` — fuelled, since the C
loop need not terminate; `none` means the fuel ran out or a cycle aborted. -/
def uv_run (ext : LoopExt) : Nat → Loop → Option (Int × Loop)
  | 0, _ => none
  | fuel + 1, l =>
    match uv__run ext l with
    | none => none
    | some (true, l1) => uv_run ext fuel l1
    | some (false, l1) => some (0, l1)

/-- `uv_run_once`: execute exactly one cycle, ignore its more-work flag and
return 0. -/
def uv_run_once (ext : LoopExt) (l : Loop) : Option (Int × Loop) :=
  match uv__run ext l with
  | none => none
  | some (_, l1) => some (0, l1)

/-- External collaborators that enqueue nothing and leave the loop alone,
used to exercise the reactor theorems on concrete inputs. -/
def extW : LoopExt :=
  { streamPendingEnq := fun _ => [], closeCbEnq := fun _ => [],
    runIdle := fun l => l, runPrepare := fun l => l,
    poll := fun l _ => l, runCheck := fun l => l }

/-- A closing TCP handle awaiting finalization. -/
def handleClosingW : Handle :=
  { htype := .tcp, active := false, ref := true, closing := true,
    closed := false, pending := true, next_pending := none,
    has_close_cb := false }

/-- An inert timer handle. -/
def handleIdleW : Handle :=
  { htype := .timer, active := false, ref := true, closing := false,
    closed := false, pending := false, next_pending := none,
    has_close_cb := false }

/-- A quiescent loop: empty queue, nothing active. -/
def loopEmptyW : Loop :=
  { pending_handles := [], handles := fun _ => handleIdleW,
    active_handles := 0, active_reqs := 0, idle_handles := 0 }

/-- A loop whose pending queue holds the single closing handle 0. -/
def loopCloseW : Loop :=
  { pending_handles := [0], handles := fun _ => handleClosingW,
    active_handles := 0, active_reqs := 0, idle_handles := 0 }


theorem applyOp_frozen (p : Promise) (op : PromOp) (h : p.status ≠ .pending) :
    applyOp p op = (-EINVAL, p) := by
  cases op <;> simp [applyOp, uv_promise_fulfil, uv_promise_break, h]

theorem applyOp_status_ne (p : Promise) (op : PromOp) :
    (applyOp p op).2.status ≠ .pending ∨ (applyOp p op).2 = p := by
  cases op with
  | fulfil v =>
    by_cases h : p.status = .pending
    · exact Or.inl (by simp [applyOp, uv_promise_fulfil, h])
    · exact Or.inr (by simp [applyOp, uv_promise_fulfil, h])
  | brk c =>
    by_cases h : p.status = .pending
    · exact Or.inl (by simp [applyOp, uv_promise_break, h])
    · exact Or.inr (by simp [applyOp, uv_promise_break, h])

theorem runOps_frozen (p : Promise) (ops : List PromOp) (h : p.status ≠ .pending) :
    runOps p ops = (ops.map fun _ => -EINVAL, p) := by
  induction ops with
  | nil => simp [runOps]
  | cons op ops ih =>
    simp [runOps, applyOp_frozen p op h, ih]

theorem runOps_count_le_one (p : Promise) (ops : List PromOp) :
    ((runOps p ops).1.count 0) ≤ 1 := by
  induction ops generalizing p with
  | nil => simp [runOps]
  | cons op ops ih =>
    by_cases h : p.status = .pending
    · cases op with
      | fulfil v =>
        have hne : (applyOp p (.fulfil v)).2.status ≠ .pending := by
          simp [applyOp, uv_promise_fulfil, h]
        simp only [runOps, runOps_frozen _ ops hne]
        simp [List.count_cons, List.count_replicate, EINVAL]
        split <;> simp
      | brk c =>
        have hne : (applyOp p (.brk c)).2.status ≠ .pending := by
          simp [applyOp, uv_promise_break, h]
        simp only [runOps, runOps_frozen _ ops hne]
        simp [List.count_cons, List.count_replicate, EINVAL]
        split <;> simp
    · have := applyOp_frozen p op h
      simp only [runOps, this]
      have : ((-EINVAL : Int) :: (runOps p ops).1).count 0 = (runOps p ops).1.count 0 := by
        simp [List.count_cons, EINVAL]
      simp only [this]
      exact ih p

theorem runOps_success_writes (p : Promise) (ops : List PromOp) (i : Nat)
    (hrc : (runOps p ops).1.getD i (-EINVAL) = 0) :
    opSets (ops.getD i (.brk 0)) (runOps p ops).2 := by
  induction ops generalizing p i with
  | nil => simp [runOps, EINVAL] at hrc
  | cons op ops ih =>
    by_cases h : p.status = .pending
    · cases i with
      | zero =>
        cases op with
        | fulfil v =>
          have hne : (applyOp p (.fulfil v)).2.status ≠ .pending := by
            simp [applyOp, uv_promise_fulfil, h]
          simp only [runOps, runOps_frozen _ ops hne]
          simp [opSets, applyOp, uv_promise_fulfil, h]
        | brk c =>
          have hne : (applyOp p (.brk c)).2.status ≠ .pending := by
            simp [applyOp, uv_promise_break, h]
          simp only [runOps, runOps_frozen _ ops hne]
          simp [opSets, applyOp, uv_promise_break, h]
      | succ j =>
        rcases applyOp_status_ne p op with hne | heq
        · have hall := runOps_frozen (applyOp p op).2 ops hne
          simp only [runOps, hall] at hrc
          simp only [List.getD_cons_succ] at hrc
          by_cases hj : j < ops.length
          · rw [List.getD_eq_getElem?_getD] at hrc
            rw [List.getElem?_map] at hrc
            simp [List.getElem?_eq_getElem (by simpa using hj), EINVAL] at hrc
          · rw [List.getD_eq_getElem?_getD] at hrc
            rw [List.getElem?_map] at hrc
            rw [List.getElem?_eq_none (by simpa using Nat.le_of_not_lt hj)] at hrc
            simp [EINVAL] at hrc
        · simp only [runOps, heq, List.getD_cons_succ] at hrc ⊢
          exact ih p j hrc
    · have hfr := applyOp_frozen p op h
      cases i with
      | zero =>
        simp only [runOps, hfr] at hrc
        simp [EINVAL] at hrc
      | succ j =>
        simp only [runOps, hfr] at hrc ⊢
        simp only [List.getD_cons_succ] at hrc
        simpa using ih p j hrc

/-- C1: only a fulfil/break call made while status is `PENDING` succeeds
(returns 0) and performs the transition; a call made when status is not
`PENDING` returns `-EINVAL` and leaves status, result and code unchanged; over
any sequence of fulfil/break calls at most one succeeds, and the stored
status/result/code afterwards are exactly the ones written by the successful
call. -/
theorem promise_single_transition (p : Promise) (ops : List PromOp) :
    (∀ v, p.status = .pending →
       uv_promise_fulfil p v = (0, { p with status := .fulfilled, result := v })) ∧
    (∀ c, p.status = .pending →
       uv_promise_break p c = (0, { p with status := .broken, code := c })) ∧
    (∀ op, p.status ≠ .pending → applyOp p op = (-EINVAL, p)) ∧
    (runOps p ops).1.count 0 ≤ 1 ∧
    (∀ i, (runOps p ops).1.getD i (-EINVAL) = 0 →
       opSets (ops.getD i (.brk 0)) (runOps p ops).2) := by
  refine ⟨?_, ?_, applyOp_frozen p, runOps_count_le_one p ops,
    fun i => runOps_success_writes p ops i⟩
  · intro v h
    simp [uv_promise_fulfil, h]
  · intro c h
    simp [uv_promise_break, h]

theorem promise_single_transition_witness :
    (runOps { status := .pending, result := none, code := 0, waiting := 0 }
       [PromOp.fulfil (some 5), PromOp.brk 3]).1.count 0 ≤ 1 ∧
    opSets (PromOp.fulfil (some 5))
      (runOps { status := .pending, result := none, code := 0, waiting := 0 }
         [PromOp.fulfil (some 5), PromOp.brk 3]).2 := by
  have h := promise_single_transition
    { status := .pending, result := none, code := 0, waiting := 0 }
    [PromOp.fulfil (some 5), PromOp.brk 3]
  exact ⟨h.2.2.2.1, h.2.2.2.2 0 (by decide)⟩

/-- C2: `uv_promise_destroy` on a still-`PENDING` promise forces status to
`CANCELLED`, leaves result and code unchanged, and broadcasts when waiters are
blocked, so a blocked `uv_promise_get` caller completing afterwards snapshots
status `CANCELLED`; on an already-terminal promise destroy leaves the promise
state unchanged. -/
theorem promise_destroy_spec (p : Promise) :
    (p.status = .pending →
       (uv_promise_destroy p).1.status = .cancelled ∧
       (uv_promise_destroy p).1.result = p.result ∧
       (uv_promise_destroy p).1.code = p.code ∧
       (0 < p.waiting → (uv_promise_destroy p).2 = true) ∧
       (uv_promise_get_complete (uv_promise_destroy p).1).1.status = .cancelled) ∧
    (p.status ≠ .pending →
       (uv_promise_destroy p).1 = p ∧
       (0 < p.waiting → (uv_promise_destroy p).2 = true)) := by
  constructor
  · intro h
    simp [uv_promise_destroy, uv_promise_get_complete, h]
  · intro h
    simp [uv_promise_destroy, h]

theorem promise_destroy_spec_witness :
    (uv_promise_destroy { status := .pending, result := none, code := 0, waiting := 2 }).1.status
      = .cancelled ∧
    (uv_promise_destroy { status := .pending, result := none, code := 0, waiting := 2 }).2
      = true := by
  have h := (promise_destroy_spec
    { status := .pending, result := none, code := 0, waiting := 2 }).1 (by rfl)
  exact ⟨h.1, h.2.2.2.1 (by decide)⟩

/-- C5: `uv_promise_trywait` never blocks: on a failed trylock it returns the
fixed `{PENDING, 0, NULL}` snapshot without reading the promise's fields, on a
successful trylock it returns the current `{status, code, result}`, and in
both cases the promise state is unchanged. -/
theorem promise_trywait_spec (p : Promise) (acquired : Bool) :
    (uv_promise_trywait p acquired).2 = p ∧
    (acquired = false →
       (uv_promise_trywait p acquired).1 =
         { status := .pending, code := 0, result := none }) ∧
    (acquired = true →
       (uv_promise_trywait p acquired).1 =
         { status := p.status, code := p.code, result := p.result }) := by
  cases acquired <;> simp [uv_promise_trywait]

theorem promise_trywait_spec_witness :
    (uv_promise_trywait { status := .fulfilled, result := some 7, code := 0, waiting := 0 }
       false).1 = { status := .pending, code := 0, result := none } ∧
    (uv_promise_trywait { status := .fulfilled, result := some 7, code := 0, waiting := 0 }
       true).1 = { status := .fulfilled, code := 0, result := some 7 } := by
  refine ⟨(promise_trywait_spec
      { status := .fulfilled, result := some 7, code := 0, waiting := 0 } false).2.1 rfl, ?_⟩
  have h := (promise_trywait_spec
    { status := .fulfilled, result := some 7, code := 0, waiting := 0 } true).2.2 rfl
  simpa using h

/-- C8: `uv_promise_init` returns the mutex error immediately, writing no
field, when the mutex allocation fails; when the mutex succeeds but the
condition variable fails it destroys the mutex and returns the error; on
success it returns 0 with status `PENDING`, result `NULL`, code 0 and zero
waiters, both primitives allocated. -/
theorem promise_init_spec (rcMutex rcCond : Int) :
    (rcMutex ≠ 0 →
       uv_promise_init rcMutex rcCond =
         { rc := rcMutex, fields := none, mutexAlive := false, condAlive := false }) ∧
    (rcMutex = 0 → rcCond ≠ 0 →
       (uv_promise_init rcMutex rcCond).rc = rcCond ∧
       (uv_promise_init rcMutex rcCond).mutexAlive = false ∧
       (uv_promise_init rcMutex rcCond).condAlive = false) ∧
    (rcMutex = 0 → rcCond = 0 →
       uv_promise_init rcMutex rcCond =
         { rc := 0,
           fields := some { status := .pending, result := none, code := 0, waiting := 0 },
           mutexAlive := true, condAlive := true }) := by
  refine ⟨fun h => by simp [uv_promise_init, h], fun h h2 => ?_, fun h h2 => ?_⟩
  · simp [uv_promise_init, h, h2]
  · simp [uv_promise_init, h, h2]

theorem promise_init_spec_witness :
    uv_promise_init (-12) 0 =
      { rc := -12, fields := none, mutexAlive := false, condAlive := false } ∧
    (uv_promise_init 0 (-12)).mutexAlive = false ∧
    uv_promise_init 0 0 =
      { rc := 0,
        fields := some { status := .pending, result := none, code := 0, waiting := 0 },
        mutexAlive := true, condAlive := true } := by
  refine ⟨(promise_init_spec (-12) 0).1 (by decide),
    ((promise_init_spec 0 (-12)).2.1 rfl (by decide)).2.1,
    (promise_init_spec 0 0).2.2 rfl rfl⟩

/-- C9: the enter phase of `uv_promise_get` increments the waiter count and
changes nothing else; the completion phase, which runs only once status has
left `PENDING`, decrements the waiter count, changes nothing else, and returns
a snapshot equal to the stored `{status, code, result}` whose status is one of
the three terminal states; a `get` on an already-terminal promise returns that
snapshot with the promise unchanged. -/
theorem promise_get_spec (p q : Promise) (hq : q.status ≠ .pending) :
    uv_promise_get_enter p = { p with waiting := p.waiting + 1 } ∧
    (uv_promise_get_complete q).1 =
      { status := q.status, code := q.code, result := q.result } ∧
    ((uv_promise_get_complete q).1.status = .fulfilled ∨
     (uv_promise_get_complete q).1.status = .broken ∨
     (uv_promise_get_complete q).1.status = .cancelled) ∧
    (uv_promise_get_complete q).2 = { q with waiting := q.waiting - 1 } ∧
    (p.status ≠ .pending →
       uv_promise_get p =
         some ({ status := p.status, code := p.code, result := p.result }, p)) := by
  refine ⟨rfl, rfl, ?_, rfl, fun hp => ?_⟩
  · cases hs : q.status
    · exact absurd hs hq
    · simp [uv_promise_get_complete, hs]
    · simp [uv_promise_get_complete, hs]
    · simp [uv_promise_get_complete, hs]
  · simp [uv_promise_get, uv_promise_get_complete, uv_promise_get_enter, hp]

theorem promise_get_spec_witness :
    (uv_promise_get_complete
       { status := .broken, result := none, code := -5, waiting := 1 }).1 =
      { status := .broken, code := -5, result := none } ∧
    uv_promise_get { status := .broken, result := none, code := -5, waiting := 0 } =
      some ({ status := .broken, code := -5, result := none },
            { status := .broken, result := none, code := -5, waiting := 0 }) := by
  have h := promise_get_spec
    { status := .broken, result := none, code := -5, waiting := 0 }
    { status := .broken, result := none, code := -5, waiting := 1 } (by decide)
  exact ⟨h.2.1, h.2.2.2.2 (by decide)⟩

/-- C10: while status is `PENDING` the code field is 0 and the result field is
`NULL`: the fields written by `uv_promise_init` satisfy this, every promise
operation preserves it, and under it the fixed `{PENDING, 0, NULL}` snapshot
`uv_promise_trywait` returns on a contested lock coincides with the snapshot
a successful trylock takes of a still-pending promise. -/
theorem promise_pending_fields_inv (p : Promise) (op : PromOp) (acquired : Bool)
    (hp : pendingInv p) :
    (∀ rcMutex rcCond q, (uv_promise_init rcMutex rcCond).fields = some q →
       pendingInv q) ∧
    pendingInv (applyOp p op).2 ∧
    pendingInv (uv_promise_get_enter p) ∧
    pendingInv (uv_promise_get_complete p).2 ∧
    pendingInv (uv_promise_trywait p acquired).2 ∧
    pendingInv (uv_promise_destroy p).1 ∧
    (p.status = .pending →
       (uv_promise_trywait p false).1 = (uv_promise_trywait p true).1) := by
  refine ⟨?_, ?_, ?_, ?_, ?_, ?_, ?_⟩
  · intro rcMutex rcCond q hq
    by_cases h : rcMutex = 0
    · simp [uv_promise_init, h] at hq
      simp [pendingInv, ← hq]
    · simp [uv_promise_init, h] at hq
  · by_cases h : p.status = .pending
    · cases op with
      | fulfil v => intro hs; simp [applyOp, uv_promise_fulfil, h] at hs
      | brk c => intro hs; simp [applyOp, uv_promise_break, h] at hs
    · rw [applyOp_frozen p op h]
      exact hp
  · intro hs
    exact hp hs
  · intro hs
    simp only [uv_promise_get_complete] at hs ⊢
    exact hp hs
  · cases acquired <;> simpa [uv_promise_trywait] using hp
  · by_cases h : p.status = .pending
    · intro hs
      simp [uv_promise_destroy, h] at hs
    · intro hs
      simp [uv_promise_destroy, h] at hs
  · intro h
    rcases hp h with ⟨hc, hr⟩
    simp [uv_promise_trywait, h, hc, hr]

theorem promise_pending_fields_inv_witness :
    pendingInv (applyOp { status := .pending, result := none, code := 0, waiting := 0 }
      (PromOp.fulfil (some 4))).2 ∧
    (uv_promise_trywait { status := .pending, result := none, code := 0, waiting := 0 }
       false).1 =
    (uv_promise_trywait { status := .pending, result := none, code := 0, waiting := 0 }
       true).1 := by
  have h := promise_pending_fields_inv
    { status := .pending, result := none, code := 0, waiting := 0 }
    (PromOp.fulfil (some 4)) false (fun _ => ⟨rfl, rfl⟩)
  exact ⟨h.2.1, h.2.2.2.2.2.2 rfl⟩

theorem setHandle_handles_self (l : Loop) (id : Nat) (h : Handle) :
    (setHandle l id h).handles id = h := by
  simp [setHandle]

theorem setHandle_handles_ne (l : Loop) (id j : Nat) (h : Handle) (hj : j ≠ id) :
    (setHandle l id h).handles j = l.handles j := by
  simp [setHandle, Function.update_apply, hj]

theorem setHandle_queue (l : Loop) (id : Nat) (h : Handle) :
    (setHandle l id h).pending_handles = l.pending_handles := rfl

theorem clearPending_handles_self (l : Loop) (id : Nat) :
    (clearPending l id).handles id =
      { l.handles id with pending := false, next_pending := none } := by
  simp [clearPending, setHandle_handles_self]

theorem clearPending_handles_ne (l : Loop) (id j : Nat) (hj : j ≠ id) :
    (clearPending l id).handles j = l.handles j :=
  setHandle_handles_ne _ _ _ _ hj

theorem clearPending_queue (l : Loop) (id : Nat) :
    (clearPending l id).pending_handles = l.pending_handles := rfl

theorem make_pending_closing (l : Loop) (i j : Nat) :
    ((uv__make_pending l i).handles j).closing = (l.handles j).closing := by
  unfold uv__make_pending
  split
  · rfl
  · by_cases h : j = i
    · subst h
      simp [Function.update_apply]
    · simp [Function.update_apply, h]

theorem foldl_make_pending_closing (xs : List Nat) (l : Loop) (j : Nat) :
    ((xs.foldl uv__make_pending l).handles j).closing = (l.handles j).closing := by
  induction xs generalizing l with
  | nil => rfl
  | cons x xs ih => rw [List.foldl_cons, ih, make_pending_closing]

theorem foldl_make_pending_handle (xs : List Nat) (l : Loop) (j : Nat) (hj : j ∉ xs) :
    (xs.foldl uv__make_pending l).handles j = l.handles j := by
  induction xs generalizing l with
  | nil => rfl
  | cons x xs ih =>
    rw [List.foldl_cons, ih _ (fun hm => hj (List.mem_cons_of_mem _ hm))]
    have hx : j ≠ x := fun he => hj (he ▸ List.mem_cons_self x xs)
    unfold uv__make_pending
    split
    · rfl
    · simp [Function.update_apply, hx]

theorem make_pending_mem (l : Loop) (i x : Nat)
    (hx : x ∈ (uv__make_pending l i).pending_handles) :
    x = i ∨ x ∈ l.pending_handles := by
  unfold uv__make_pending at hx
  split at hx
  · exact Or.inr hx
  · simpa using hx

theorem foldl_make_pending_mem (xs : List Nat) (l : Loop) (x : Nat)
    (hx : x ∈ (xs.foldl uv__make_pending l).pending_handles) :
    x ∈ xs ∨ x ∈ l.pending_handles := by
  induction xs generalizing l with
  | nil => exact Or.inr hx
  | cons y ys ih =>
    rw [List.foldl_cons] at hx
    rcases ih _ hx with h | h
    · exact Or.inl (List.mem_cons_of_mem _ h)
    · rcases make_pending_mem _ _ _ h with h2 | h2
      · exact Or.inl (h2 ▸ List.mem_cons_self y ys)
      · exact Or.inr h2

theorem finish_close_some (h h2 : Handle) (evs : List CloseEvent)
    (hs : uv__finish_close h = some (h2, evs)) :
    h2 = { h with closed := true, ref := false } ∧
    evs = closeReleaseEvents h.htype ++
      (if h.has_close_cb then [CloseEvent.closeCb] else []) ∧
    h.active = false ∧ h.closing = true ∧ h.closed = false := by
  by_cases ha : h.active = true
  · unfold uv__finish_close at hs
    rw [if_pos ha] at hs
    exact absurd hs (by simp)
  · by_cases hc : h.closing = true
    · by_cases hd : h.closed = true
      · unfold uv__finish_close at hs
        rw [if_neg ha, if_neg (by simp [hc]), if_pos hd] at hs
        exact absurd hs (by simp)
      · unfold uv__finish_close at hs
        rw [if_neg ha, if_neg (by simp [hc]), if_neg hd] at hs
        simp only [Option.some.injEq, Prod.mk.injEq] at hs
        exact ⟨hs.1.symm, hs.2.symm, by simpa using ha, hc, by simpa using hd⟩
    · unfold uv__finish_close at hs
      rw [if_neg ha, if_pos (by simp [hc])] at hs
      exact absurd hs (by simp)

theorem process_pending_some (ext : LoopExt) (l : Loop) (id : Nat) (l1 : Loop)
    (a : PendAction) (hp : uv__process_pending ext l id = some (l1, a)) :
    a = (if (l.handles id).closing then PendAction.finishClose id
         else PendAction.streamPending id) ∧
    (∀ j, (l1.handles j).closing = (l.handles j).closing) ∧
    (∀ x ∈ l1.pending_handles, x ∈ enqueuedDuring ext a ∨ x ∈ l.pending_handles) ∧
    (id ∉ enqueuedDuring ext a →
       (l1.handles id).pending = false ∧ (l1.handles id).next_pending = none) := by
  unfold uv__process_pending at hp
  by_cases hcl : (l.handles id).closing = true
  · rw [if_pos hcl] at hp
    rcases hfc : uv__finish_close ((clearPending l id).handles id) with _ | ⟨h2, evs⟩
    · rw [hfc] at hp
      exact absurd hp (by simp)
    · rw [hfc] at hp
      simp only [Option.some.injEq, Prod.mk.injEq] at hp
      obtain ⟨hl1, hact⟩ := hp
      subst hact
      obtain ⟨hh2, -, -, -, -⟩ := finish_close_some _ _ _ hfc
      rw [clearPending_handles_self] at hh2
      refine ⟨by simp [hcl], ?_, ?_, ?_⟩
      · intro j
        rw [← hl1]
        by_cases hcb : (l.handles id).has_close_cb = true
        · rw [if_pos hcb, foldl_make_pending_closing]
          by_cases hj : j = id
          · subst hj
            rw [setHandle_handles_self, hh2]
          · rw [setHandle_handles_ne _ _ _ _ hj, clearPending_handles_ne _ _ _ hj]
        · rw [if_neg hcb]
          by_cases hj : j = id
          · subst hj
            rw [setHandle_handles_self, hh2]
          · rw [setHandle_handles_ne _ _ _ _ hj, clearPending_handles_ne _ _ _ hj]
      · intro x hx
        rw [← hl1] at hx
        by_cases hcb : (l.handles id).has_close_cb = true
        · rw [if_pos hcb] at hx
          rcases foldl_make_pending_mem _ _ _ hx with hin | hin
          · exact Or.inl (by simpa [enqueuedDuring] using hin)
          · exact Or.inr (by simpa [setHandle_queue, clearPending_queue] using hin)
        · rw [if_neg hcb] at hx
          exact Or.inr (by simpa [setHandle_queue, clearPending_queue] using hx)
      · intro hnid
        rw [← hl1]
        simp only [enqueuedDuring] at hnid
        by_cases hcb : (l.handles id).has_close_cb = true
        · rw [if_pos hcb, foldl_make_pending_handle _ _ _ hnid, setHandle_handles_self, hh2]
          exact ⟨rfl, rfl⟩
        · rw [if_neg hcb, setHandle_handles_self, hh2]
          exact ⟨rfl, rfl⟩
  · rw [if_neg hcl] at hp
    by_cases hst : isStreamType (l.handles id).htype = true
    · rw [if_pos hst] at hp
      simp only [Option.some.injEq, Prod.mk.injEq] at hp
      obtain ⟨hl1, hact⟩ := hp
      subst hact
      refine ⟨by simp [hcl], ?_, ?_, ?_⟩
      · intro j
        rw [← hl1, foldl_make_pending_closing]
        by_cases hj : j = id
        · subst hj
          rw [clearPending_handles_self]
        · rw [clearPending_handles_ne _ _ _ hj]
      · intro x hx
        rw [← hl1] at hx
        rcases foldl_make_pending_mem _ _ _ hx with hin | hin
        · exact Or.inl (by simpa [enqueuedDuring] using hin)
        · exact Or.inr (by simpa [clearPending_queue] using hin)
      · intro hnid
        rw [← hl1]
        simp only [enqueuedDuring] at hnid
        rw [foldl_make_pending_handle _ _ _ hnid, clearPending_handles_self]
        exact ⟨rfl, rfl⟩
    · rw [if_neg hst] at hp
      exact absurd hp (by simp)

theorem run_pending_list_spec (ext : LoopExt) (ids : List Nat) (l l2 : Loop)
    (tr : List PendAction) (h : uv__run_pending_list ext ids l = some (l2, tr)) :
    tr.map PendAction.hid = ids ∧
    (∀ j, (l2.handles j).closing = (l.handles j).closing) ∧
    (∀ k, k < ids.length →
       tr.getD k (.finishClose 0) =
         (if (l.handles (ids.getD k 0)).closing then
            PendAction.finishClose (ids.getD k 0)
          else PendAction.streamPending (ids.getD k 0))) ∧
    (∀ x ∈ l2.pending_handles,
       (∃ a ∈ tr, x ∈ enqueuedDuring ext a) ∨ x ∈ l.pending_handles) := by
  induction ids generalizing l tr with
  | nil =>
    unfold uv__run_pending_list at h
    simp only [Option.some.injEq, Prod.mk.injEq] at h
    obtain ⟨hl, ht⟩ := h
    subst hl
    subst ht
    refine ⟨rfl, fun _ => rfl, ?_, fun x hx => Or.inr hx⟩
    intro k hk
    simp at hk
  | cons id ids ih =>
    unfold uv__run_pending_list at h
    rcases hp : uv__process_pending ext l id with _ | ⟨lmid, a⟩
    · rw [hp] at h
      exact absurd h (by simp)
    · rw [hp] at h
      dsimp only at h
      rcases hrl : uv__run_pending_list ext ids lmid with _ | ⟨lend, trend⟩
      · rw [hrl] at h
        exact absurd h (by simp)
      · rw [hrl] at h
        dsimp only at h
        simp only [Option.some.injEq, Prod.mk.injEq] at h
        obtain ⟨hl2, htr⟩ := h
        subst hl2
        subst htr
        obtain ⟨ha, hcl, hmem, -⟩ := process_pending_some ext l id lmid a hp
        obtain ⟨ihmap, ihcl, ihact, ihmem⟩ := ih lmid trend hrl
        refine ⟨?_, ?_, ?_, ?_⟩
        · simp only [List.map_cons, ihmap]
          have hhid : a.hid = id := by
            rw [ha]
            split <;> rfl
          rw [hhid]
        · intro j
          rw [ihcl j, hcl j]
        · intro k hk
          cases k with
          | zero => simpa using ha
          | succ k2 =>
            simp only [List.getD_cons_succ]
            rw [ihact k2 (by simpa using hk)]
            congr 1
            rw [hcl]
        · intro x hx
          rcases ihmem x hx with ⟨a2, ha2, hin⟩ | hrest
          · exact Or.inl ⟨a2, List.mem_cons_of_mem _ ha2, hin⟩
          · rcases hmem x hrest with hin | hin
            · exact Or.inl ⟨a, List.mem_cons_self _ _, hin⟩
            · exact Or.inr hin

/-- C3: `uv__run_pending` first detaches the whole pending queue, so exactly
the handles queued at entry are dispatched this cycle, in order — a handle
enqueued by a dispatch lands in the queue the next cycle drains, never this
cycle's pass; each detached handle has its `PENDING` flag cleared and its
`next_pending` link nulled before its dispatch, and is dispatched to the
close finalizer when its `CLOSING` flag is set and to the type-specific
pending dispatcher otherwise. -/
theorem run_pending_spec (ext : LoopExt) (l : Loop) :
    (l.pending_handles = [] → uv__run_pending ext l = some (l, [])) ∧
    (∀ l2 tr, uv__run_pending ext l = some (l2, tr) →
       tr.map PendAction.hid = l.pending_handles ∧
       (∀ k, k < l.pending_handles.length →
          tr.getD k (.finishClose 0) =
            (if (l.handles (l.pending_handles.getD k 0)).closing then
               PendAction.finishClose (l.pending_handles.getD k 0)
             else PendAction.streamPending (l.pending_handles.getD k 0))) ∧
       (∀ x ∈ l2.pending_handles, ∃ a ∈ tr, x ∈ enqueuedDuring ext a)) ∧
    (∀ id l1 a, uv__process_pending ext l id = some (l1, a) →
       (a = (if (l.handles id).closing then PendAction.finishClose id
             else PendAction.streamPending id)) ∧
       (id ∉ enqueuedDuring ext a →
          (l1.handles id).pending = false ∧ (l1.handles id).next_pending = none)) := by
  refine ⟨?_, ?_, ?_⟩
  · intro hq
    unfold uv__run_pending
    rw [if_pos hq]
  · intro l2 tr h
    unfold uv__run_pending at h
    by_cases hq : l.pending_handles = []
    · rw [if_pos hq] at h
      simp only [Option.some.injEq, Prod.mk.injEq] at h
      obtain ⟨hl, ht⟩ := h
      subst hl
      subst ht
      simp [hq]
    · rw [if_neg hq] at h
      obtain ⟨hmap, -, hact, hmem⟩ :=
        run_pending_list_spec ext l.pending_handles _ l2 tr h
      refine ⟨hmap, hact, ?_⟩
      intro x hx
      rcases hmem x hx with hin | hin
      · exact hin
      · simp at hin
  · intro id l1 a hp
    obtain ⟨ha, -, -, hclear⟩ := process_pending_some ext l id l1 a hp
    exact ⟨ha, hclear⟩

/-- C4: the close finalizer aborts on its assertions exactly when the handle
is active, not `CLOSING`, or already `CLOSED`; otherwise it sets `CLOSED`,
performs the type-specific release for the handle's kind, invokes the close
callback exactly once when one was supplied — after all type-specific
teardown — and un-references the handle; running the finalizer again on the
result aborts, so `CLOSED` is set and the callback fired at most once in a
handle's lifetime. -/
theorem finish_close_spec (h : Handle) :
    ((h.active = true ∨ h.closing = false ∨ h.closed = true) ↔
       uv__finish_close h = none) ∧
    (∀ h2 evs, uv__finish_close h = some (h2, evs) →
       h2 = { h with closed := true, ref := false } ∧
       evs = closeReleaseEvents h.htype ++
         (if h.has_close_cb then [CloseEvent.closeCb] else []) ∧
       evs.count CloseEvent.closeCb = (if h.has_close_cb then 1 else 0) ∧
       CloseEvent.closeCb ∉ closeReleaseEvents h.htype ∧
       uv__finish_close h2 = none) := by
  have hnone : (h.active = true ∨ h.closing = false ∨ h.closed = true) ↔
      uv__finish_close h = none := by
    by_cases ha : h.active = true <;> by_cases hc : h.closing = true <;>
      by_cases hd : h.closed = true <;>
      simp [uv__finish_close, ha, hc, hd]
  refine ⟨hnone, ?_⟩
  intro h2 evs hs
  obtain ⟨hh2, hevs, ha, hc, hd⟩ := finish_close_some h h2 evs hs
  have hrel : CloseEvent.closeCb ∉ closeReleaseEvents h.htype := by
    cases h.htype <;> simp [closeReleaseEvents]
  refine ⟨hh2, hevs, ?_, hrel, ?_⟩
  · rw [hevs, List.count_append, List.count_eq_zero_of_not_mem hrel]
    by_cases hcb : h.has_close_cb = true <;> simp [hcb]
  · rw [hh2]
    simp [uv__finish_close, ha, hc]

theorem finish_close_spec_witness :
    (uv__finish_close
       { htype := .tcp, active := false, ref := true, closing := true,
         closed := false, pending := false, next_pending := none,
         has_close_cb := true }).map (fun r => r.2.count CloseEvent.closeCb) =
      some 1 ∧
    (uv__finish_close
       { htype := .tcp, active := false, ref := true, closing := true,
         closed := false, pending := false, next_pending := none,
         has_close_cb := true }).map (fun r => r.1.closed) = some true := by
  rcases hfc : uv__finish_close
      { htype := .tcp, active := false, ref := true, closing := true,
        closed := false, pending := false, next_pending := none,
        has_close_cb := true } with _ | ⟨h2, evs⟩
  · have hcontra := (finish_close_spec
      { htype := .tcp, active := false, ref := true, closing := true,
        closed := false, pending := false, next_pending := none,
        has_close_cb := true }).1.2 hfc
    simp at hcontra
  · obtain ⟨hh2, -, hcount, -, -⟩ := (finish_close_spec
      { htype := .tcp, active := false, ref := true, closing := true,
        closed := false, pending := false, next_pending := none,
        has_close_cb := true }).2 h2 evs hfc
    constructor
    · show some (List.count CloseEvent.closeCb evs) = some 1
      rw [hcount]
      rfl
    · show some h2.closed = some true
      rw [hh2]

/-- C7: for a handle of any known type, `uv_close` stores the supplied close
callback, dispatches the type-specific shutdown routine selected by the
handle's type tag, then sets `CLOSING` and enqueues the handle onto the
loop's pending queue (the hypothesis is the queue well-formedness invariant:
a handle whose `PENDING` flag is set is already linked in the queue). -/
theorem setHandle_setHandle (l : Loop) (id : Nat) (h1 h2 : Handle) :
    setHandle (setHandle l id h1) id h2 = setHandle l id h2 := by
  simp [setHandle, Function.update_idem]

theorem uv_close_eq (l : Loop) (id : Nat) (cb : Bool) :
    uv_close l id cb =
      (uv__make_pending
        (setHandle l id
          { l.handles id with has_close_cb := cb, closing := true }) id,
       closeRoutineFor (l.handles id).htype) := by
  unfold uv_close
  dsimp only
  rw [setHandle_handles_self, setHandle_setHandle]

theorem close_spec (l : Loop) (id : Nat) (cb : Bool)
    (hwf : (l.handles id).pending = true → id ∈ l.pending_handles) :
    ((uv_close l id cb).1.handles id).has_close_cb = cb ∧
    (uv_close l id cb).2 = closeRoutineFor (l.handles id).htype ∧
    ((uv_close l id cb).1.handles id).closing = true ∧
    ((uv_close l id cb).1.handles id).pending = true ∧
    id ∈ (uv_close l id cb).1.pending_handles ∧
    ((uv_close l id cb).1.handles id).htype = (l.handles id).htype := by
  rw [uv_close_eq]
  by_cases hpend : (l.handles id).pending = true
  · have hskip : uv__make_pending
        (setHandle l id
          { l.handles id with has_close_cb := cb, closing := true }) id =
        setHandle l id
          { l.handles id with has_close_cb := cb, closing := true } := by
      unfold uv__make_pending
      rw [if_pos (by rw [setHandle_handles_self]; exact hpend)]
    rw [hskip]
    refine ⟨?_, rfl, ?_, ?_, ?_, ?_⟩ <;>
      simp [setHandle_handles_self, setHandle_queue, hpend, hwf hpend]
  · have hpush : uv__make_pending
        (setHandle l id
          { l.handles id with has_close_cb := cb, closing := true }) id =
        { setHandle l id
            { l.handles id with has_close_cb := cb, closing := true } with
          pending_handles := id ::
            (setHandle l id
              { l.handles id with has_close_cb := cb, closing := true
                }).pending_handles,
          handles := Function.update
            (setHandle l id
              { l.handles id with has_close_cb := cb, closing := true }).handles
            id
            ({ (setHandle l id
                 { l.handles id with has_close_cb := cb, closing := true
                   }).handles id with
                pending := true,
                next_pending := (setHandle l id
                  { l.handles id with has_close_cb := cb, closing := true
                    }).pending_handles.head? }) } := by
      unfold uv__make_pending
      rw [if_neg (by rw [setHandle_handles_self]; exact hpend)]
    rw [hpush]
    simp [Function.update_apply, setHandle_handles_self, setHandle_queue]

theorem uv__run_flag (ext : LoopExt) (l : Loop) (b : Bool) (l2 : Loop)
    (h : uv__run ext l = some (b, l2)) :
    b = (uv__has_pending_handles l2 || uv__has_active_handles l2 ||
         uv__has_active_reqs l2) := by
  unfold uv__run at h
  dsimp only at h
  rcases hrp : uv__run_pending ext (ext.runIdle l) with _ | ⟨lmid, tr⟩
  · rw [hrp] at h
    exact absurd h (by simp)
  · rw [hrp] at h
    dsimp only at h
    simp only [Option.some.injEq, Prod.mk.injEq] at h
    obtain ⟨hb, hl⟩ := h
    rw [← hb, hl]

theorem uv_run_stops (ext : LoopExt) (fuel : Nat) (l : Loop) (rc : Int) (l2 : Loop)
    (h : uv_run ext fuel l = some (rc, l2)) :
    rc = 0 ∧ l2.pending_handles = [] ∧ l2.active_handles = 0 ∧
      l2.active_reqs = 0 := by
  induction fuel generalizing l with
  | zero => exact absurd h (by simp [uv_run])
  | succ fuel ih =>
    unfold uv_run at h
    rcases hr : uv__run ext l with _ | ⟨b, l1⟩
    · rw [hr] at h
      exact absurd h (by simp)
    · rw [hr] at h
      cases b with
      | true =>
        dsimp only at h
        exact ih l1 h
      | false =>
        dsimp only at h
        simp only [Option.some.injEq, Prod.mk.injEq] at h
        obtain ⟨hrc, hl⟩ := h
        subst hl
        have hb := (uv__run_flag ext l false l1 hr).symm
        rw [uv__has_pending_handles, uv__has_active_handles,
          uv__has_active_reqs] at hb
        simp only [Bool.or_eq_false_iff, decide_eq_false_iff_not] at hb
        exact ⟨hrc.symm, by simpa using hb.1.1, by omega, by omega⟩

/-- C6: a reactor cycle reports "more work may exist" exactly when the
pending queue is non-empty or an active handle or request remains; `uv_run`
repeats cycles while that flag is true and returns 0 once a cycle reports it
false (so at its return nothing remains); `uv_run_once` executes exactly one
cycle, returns 0, and ignores the flag. -/
theorem run_cycle_spec (ext : LoopExt) (l : Loop) :
    (∀ b l2, uv__run ext l = some (b, l2) →
       (b = true ↔ (l2.pending_handles ≠ [] ∨ 0 < l2.active_handles ∨
          0 < l2.active_reqs))) ∧
    (∀ l2 fuel, uv__run ext l = some (true, l2) →
       uv_run ext (fuel + 1) l = uv_run ext fuel l2) ∧
    (∀ l2 fuel, uv__run ext l = some (false, l2) →
       uv_run ext (fuel + 1) l = some (0, l2)) ∧
    (∀ fuel rc l2, uv_run ext fuel l = some (rc, l2) →
       rc = 0 ∧ l2.pending_handles = [] ∧ l2.active_handles = 0 ∧
         l2.active_reqs = 0) ∧
    (∀ b l2, uv__run ext l = some (b, l2) → uv_run_once ext l = some (0, l2)) := by
  refine ⟨?_, ?_, ?_, fun fuel rc l2 h => uv_run_stops ext fuel l rc l2 h, ?_⟩
  · intro b l2 h
    rw [uv__run_flag ext l b l2 h, uv__has_pending_handles, uv__has_active_handles,
      uv__has_active_reqs]
    simp [or_assoc]
  · intro l2 fuel h
    have hstep : uv_run ext (fuel + 1) l =
        match uv__run ext l with
        | none => none
        | some (true, l1) => uv_run ext fuel l1
        | some (false, l1) => some (0, l1) := rfl
    rw [hstep, h]
  · intro l2 fuel h
    have hstep : uv_run ext (fuel + 1) l =
        match uv__run ext l with
        | none => none
        | some (true, l1) => uv_run ext fuel l1
        | some (false, l1) => some (0, l1) := rfl
    rw [hstep, h]
  · intro b l2 h
    unfold uv_run_once
    rw [h]

theorem run_pending_spec_witness :
    uv__run_pending extW loopEmptyW = some (loopEmptyW, []) ∧
    List.map PendAction.hid [PendAction.finishClose 0] =
      loopCloseW.pending_handles := by
  constructor
  · exact (run_pending_spec extW loopEmptyW).1 rfl
  · exact ((run_pending_spec extW loopCloseW).2.1 _ [PendAction.finishClose 0] rfl).1

theorem close_spec_witness :
    ((uv_close loopEmptyW 0 true).1.handles 0).closing = true ∧
    0 ∈ (uv_close loopEmptyW 0 true).1.pending_handles ∧
    (uv_close loopEmptyW 0 true).2 = CloseRoutine.timerClose := by
  have h := close_spec loopEmptyW 0 true
    (fun hc => absurd hc (by simp [loopEmptyW, handleIdleW]))
  refine ⟨h.2.2.1, h.2.2.2.2.1, ?_⟩
  rw [h.2.1]
  rfl

theorem run_cycle_spec_witness :
    uv_run extW 1 loopEmptyW = some (0, loopEmptyW) ∧
    uv_run_once extW loopEmptyW = some (0, loopEmptyW) := by
  have h := run_cycle_spec extW loopEmptyW
  have hrun : uv__run extW loopEmptyW = some (false, loopEmptyW) := rfl
  exact ⟨h.2.2.1 loopEmptyW 0 hrun, h.2.2.2.2 false loopEmptyW hrun⟩
